import Mathlib

/-!
Verification of the dashboard core of `bot_metiers.py` (Droupik-bot).

Strings are embedded as lists of Unicode code points (`List Nat`); the helper
`codes` turns a Lean string literal into that representation.  The character
operations (`str.lower`, `str.strip`, `str.capitalize`) are modelled on the
ASCII + Latin-1 range, which covers every character the program manipulates
(the profession catalog, its accent map and the command inputs).
-/

namespace BotMetiers

/-- Code points of a string literal (embedding of a Python `str`). -/
def codes (s : String) : List Nat := s.data.map Char.toNat

/-- `str.lower` on the ASCII/Latin-1 range: `A`-`Z` and `À`-`Þ` (except `×`)
map to their lowercase counterpart 32 code points above. -/
def pyLower (n : Nat) : Nat :=
  if 65 ≤ n ∧ n ≤ 90 then n + 32
  else if 192 ≤ n ∧ n ≤ 222 ∧ n ≠ 215 then n + 32
  else n

/-- Uppercasing of the first character used by `str.capitalize`, on the
ASCII/Latin-1 range: `a`-`z` and `à`-`þ` (except `÷`) map 32 down. -/
def pyUpperFirst (n : Nat) : Nat :=
  if 97 ≤ n ∧ n ≤ 122 then n - 32
  else if 224 ≤ n ∧ n ≤ 254 ∧ n ≠ 247 then n - 32
  else n

/-- `str.capitalize`: first character uppercased, the rest lowercased. -/
def pyCapitalize (l : List Nat) : List Nat :=
  match l with
  | [] => []
  | c :: r => pyUpperFirst c :: r.map pyLower

/-- Whitespace code points stripped by `str.strip` (ASCII/Latin-1 range). -/
def wsChars : List Nat := [9, 10, 11, 12, 13, 28, 29, 30, 31, 32, 133, 160]

def isWS (n : Nat) : Bool := decide (n ∈ wsChars)

/-- `str.strip`: drop whitespace from both ends. -/
def pyStrip (l : List Nat) : List Nat := (l.dropWhile isWS).rdropWhile isWS

/-- `ACCENT_MAP` of the source, as code points:
é→e, è→e, ê→e, à→a, ù→u, ô→o, û→u, î→i, ï→i, ç→c, ä→a, ë→e, ö→o, ü→u. -/
def ACCENT_MAP : List (Nat × Nat) :=
  [(233, 101), (232, 101), (234, 101), (224, 97), (249, 117), (244, 111),
   (251, 117), (238, 105), (239, 105), (231, 99), (228, 97), (235, 101),
   (246, 111), (252, 117)]

/-- One step of the accent-fold replacement chain of `norm`: since every
key of `ACCENT_MAP` is a single accented character and no replacement value
is itself a key, the sequence of `s.replace(a, b)` calls acts independently
on each character and equals this per-character lookup. -/
def foldAccent (n : Nat) : Nat := (ACCENT_MAP.lookup n).getD n

/-- `norm` of the source: lowercase, strip, then fold the accents of
`ACCENT_MAP`. -/
def norm (l : List Nat) : List Nat := (pyStrip (l.map pyLower)).map foldAccent

/-- The "secondary" fold used by the select-option comprehension:
`m.replace("û","u").replace("â","a")`. -/
def fold2 (m : List Nat) : List Nat :=
  (m.map (fun c => if c = 251 then 117 else c)).map (fun c => if c = 226 then 97 else c)

/-! ### Character-level lemmas about the normalizer -/

theorem pyLower_idem (n : Nat) : pyLower (pyLower n) = pyLower n := by
  unfold pyLower
  split_ifs <;> omega

theorem lookup_mem_keys {l : List (Nat × Nat)} {k v : Nat} (h : l.lookup k = some v) :
    k ∈ l.map Prod.fst ∧ v ∈ l.map Prod.snd := by
  induction l with
  | nil => simp [List.lookup] at h
  | cons a r ih =>
    obtain ⟨k1, v1⟩ := a
    rw [List.lookup] at h
    by_cases hk : k = k1
    · subst hk
      simp only [beq_self_eq_true, if_true, Option.some.injEq] at h
      subst h
      simp
    · have hb : (k == k1) = false := by simpa using hk
      rw [hb] at h
      simp only [Bool.false_eq_true, if_neg] at h
      have := ih h
      simp_all

theorem fold_cases (n : Nat) :
    foldAccent n = n ∨
      (n ∈ ACCENT_MAP.map Prod.fst ∧ foldAccent n ∈ ACCENT_MAP.map Prod.snd) := by
  unfold foldAccent
  cases h : ACCENT_MAP.lookup n with
  | none => simp
  | some v =>
    right
    have := lookup_mem_keys h
    simpa using this

theorem accent_vals_not_keys :
    (ACCENT_MAP.map Prod.snd).all (fun v => (ACCENT_MAP.lookup v).isNone) = true := by decide

theorem accent_vals_lower :
    (ACCENT_MAP.map Prod.snd).all (fun v => pyLower v == v) = true := by decide

theorem accent_keys_not_ws :
    (ACCENT_MAP.map Prod.fst).all (fun k => !(isWS k)) = true := by decide

theorem accent_vals_not_ws :
    (ACCENT_MAP.map Prod.snd).all (fun v => !(isWS v)) = true := by decide

theorem foldAccent_idem (n : Nat) : foldAccent (foldAccent n) = foldAccent n := by
  rcases fold_cases n with h | ⟨_, hv⟩
  · rw [h]
    exact h
  · have h1 := List.all_eq_true.mp accent_vals_not_keys _ hv
    have h2 : ACCENT_MAP.lookup (foldAccent n) = none := by
      simpa [Option.isNone_iff_eq_none] using h1
    calc foldAccent (foldAccent n)
        = (ACCENT_MAP.lookup (foldAccent n)).getD (foldAccent n) := rfl
      _ = foldAccent n := by rw [h2, Option.getD_none]

theorem pyLower_foldAccent_pyLower (n : Nat) :
    pyLower (foldAccent (pyLower n)) = foldAccent (pyLower n) := by
  rcases fold_cases (pyLower n) with h | ⟨_, hv⟩
  · rw [h]
    exact pyLower_idem n
  · have := List.all_eq_true.mp accent_vals_lower _ hv
    simpa using this

theorem isWS_foldAccent (n : Nat) : isWS (foldAccent n) = isWS n := by
  rcases fold_cases n with h | ⟨hk, hv⟩
  · rw [h]
  · have h1 := List.all_eq_true.mp accent_keys_not_ws _ hk
    have h2 := List.all_eq_true.mp accent_vals_not_ws _ hv
    simp only [Bool.not_eq_eq_eq_not, Bool.not_true] at h1 h2
    rw [h1, h2]

/-! ### `pyStrip` lemmas -/

theorem mem_of_mem_pyStrip {x : Nat} {l : List Nat} (h : x ∈ pyStrip l) : x ∈ l := by
  unfold pyStrip at h
  have h1 := ( List.rdropWhile_prefix isWS (l.dropWhile isWS)).sublist.subset h
  exact (List.dropWhile_sublist isWS).subset h1

theorem dropWhile_pyStrip (l : List Nat) : (pyStrip l).dropWhile isWS = pyStrip l := by
  have hpre : pyStrip l <+: l.dropWhile isWS :=
    List.rdropWhile_prefix isWS (l.dropWhile isWS)
  rw [List.dropWhile_eq_self_iff]
  intro hl
  have hlen : 0 < (l.dropWhile isWS).length := Nat.lt_of_lt_of_le hl hpre.length_le
  have hD := List.dropWhile_get_zero_not isWS l hlen
  have he : (pyStrip l).get ⟨0, hl⟩ = (l.dropWhile isWS).get ⟨0, hlen⟩ := by
    simpa [List.get_eq_getElem] using hpre.getElem hl
  rw [he]
  exact hD

theorem pyStrip_idem (l : List Nat) : pyStrip (pyStrip l) = pyStrip l := by
  have h1 : (pyStrip l).dropWhile isWS = pyStrip l := dropWhile_pyStrip l
  show ((pyStrip l).dropWhile isWS).rdropWhile isWS = pyStrip l
  rw [h1]
  show ((l.dropWhile isWS).rdropWhile isWS).rdropWhile isWS = pyStrip l
  rw [List.rdropWhile_idempotent]
  rfl

theorem pyStrip_map {f : Nat → Nat} (hf : ∀ x, isWS (f x) = isWS x) (l : List Nat) :
    pyStrip (l.map f) = (pyStrip l).map f := by
  have hcomp : isWS ∘ f = isWS := funext hf
  show (((l.map f).dropWhile isWS).reverse.dropWhile isWS).reverse = _
  rw [List.dropWhile_map, hcomp, ← List.map_reverse, List.dropWhile_map, hcomp,
    ← List.map_reverse]
  rfl

/-- The normalizer is idempotent. -/
theorem norm_idem (l : List Nat) : norm (norm l) = norm l := by
  unfold norm
  set S := pyStrip (l.map pyLower) with hS
  have h1 : (S.map foldAccent).map pyLower = S.map foldAccent := by
    rw [List.map_map]
    apply List.map_congr_left
    intro x hx
    have hx1 : x ∈ l.map pyLower := mem_of_mem_pyStrip (hS ▸ hx)
    obtain ⟨y, _, rfl⟩ := List.mem_map.mp hx1
    exact pyLower_foldAccent_pyLower y
  have h2 : pyStrip (S.map foldAccent) = S.map foldAccent := by
    rw [pyStrip_map isWS_foldAccent, hS, pyStrip_idem]
  have h3 : (S.map foldAccent).map foldAccent = S.map foldAccent := by
    rw [List.map_map]
    apply List.map_congr_left
    intro x _
    exact foldAccent_idem x
  rw [h1, h2, h3]

/-! ### A stable sort

Python's `sorted`/`list.sort` is stable; on a total preorder every stable
sort computes the same list, so we embed it as insertion sort (which is
structurally recursive, hence evaluable by the kernel). -/

def insertLe {α : Type} (le : α → α → Bool) (a : α) : List α → List α
  | [] => [a]
  | b :: l => if le a b then a :: b :: l else b :: insertLe le a l

def sortLe {α : Type} (le : α → α → Bool) : List α → List α
  | [] => []
  | a :: l => insertLe le a (sortLe le l)

theorem insertLe_perm {α : Type} (le : α → α → Bool) (a : α) (l : List α) :
    (insertLe le a l).Perm (a :: l) := by
  induction l with
  | nil => exact List.Perm.refl _
  | cons b r ih =>
    show (if le a b then a :: b :: r else b :: insertLe le a r).Perm (a :: b :: r)
    split_ifs
    · exact List.Perm.refl _
    · exact (List.Perm.cons b ih).trans (List.Perm.swap a b r)

theorem sortLe_perm {α : Type} (le : α → α → Bool) (l : List α) :
    (sortLe le l).Perm l := by
  induction l with
  | nil => exact List.Perm.refl _
  | cons a r ih => exact (insertLe_perm le a (sortLe le r)).trans (List.Perm.cons a ih)

theorem insertLe_pairwise {α : Type} (le : α → α → Bool)
    (htrans : ∀ a b c, le a b → le b c → le a c)
    (htotal : ∀ a b, le a b || le b a) (a : α) (l : List α)
    (hl : l.Pairwise (fun x y => le x y)) :
    (insertLe le a l).Pairwise (fun x y => le x y) := by
  induction l with
  | nil => simp [insertLe]
  | cons b r ih =>
    rcases List.pairwise_cons.mp hl with ⟨hb, hr⟩
    show (if le a b then a :: b :: r else b :: insertLe le a r).Pairwise _
    split_ifs with hab
    · refine List.pairwise_cons.mpr ⟨?_, hl⟩
      intro x hx
      rcases List.mem_cons.mp hx with rfl | hx
      · exact hab
      · exact htrans a b x hab (hb x hx)
    · have hba : le b a := by
        have h := htotal a b
        cases hab2 : le a b with
        | true => exact absurd hab2 hab
        | false => simpa [hab2] using h
      refine List.pairwise_cons.mpr ⟨?_, ih hr⟩
      intro x hx
      have hx1 : x ∈ a :: r := (insertLe_perm le a r).mem_iff.mp hx
      rcases List.mem_cons.mp hx1 with rfl | hx1
      · exact hba
      · exact hb x hx1

theorem sortLe_pairwise {α : Type} (le : α → α → Bool)
    (htrans : ∀ a b c, le a b → le b c → le a c)
    (htotal : ∀ a b, le a b || le b a) (l : List α) :
    (sortLe le l).Pairwise (fun x y => le x y) := by
  induction l with
  | nil => simp [sortLe]
  | cons a r ih => exact insertLe_pairwise le htrans htotal a _ ih

/-! ### Lexicographic order on code-point lists (Python string comparison) -/

def lexLe : List Nat → List Nat → Bool
  | [], _ => true
  | _ :: _, [] => false
  | a :: as, b :: bs => if a < b then true else if a = b then lexLe as bs else false

theorem lexLe_total : ∀ (x y : List Nat), lexLe x y || lexLe y x
  | [], _ => by simp [lexLe]
  | _ :: _, [] => by simp [lexLe]
  | a :: as, b :: bs => by
    simp only [lexLe]
    by_cases h1 : a < b
    · simp [h1]
    · by_cases h2 : a = b
      · subst h2
        simpa [h1] using lexLe_total as bs
      · have h3 : b < a := by omega
        simp [h1, h2, h3]

theorem lexLe_trans : ∀ (x y z : List Nat), lexLe x y → lexLe y z → lexLe x z
  | [], _, _ => by simp [lexLe]
  | _ :: _, [], _ => by simp [lexLe]
  | _ :: _, _ :: _, [] => by intro _ h2; simp [lexLe] at h2
  | a :: as, b :: bs, c :: cs => by
    simp only [lexLe]
    intro h1 h2
    split_ifs at h1 h2 ⊢ <;>
      first
        | rfl
        | exact lexLe_trans as bs cs h1 h2
        | (exfalso; omega)
        | simp_all
        | omega

/-! ### Data model: job records, roster rows, roster entries -/

/-- One `(job_name, level)` record of a user (a `jobs`-table row projected
to its payload). -/
structure Job where
  job_name : List Nat
  level : Int
deriving DecidableEq

/-- One row returned by the roster query
(`SELECT j.user_id, p.dofus_name, j.job_name, j.level FROM jobs j LEFT JOIN
profiles p ... WHERE j.guild_id=$1`): the jobs-table rows of one guild,
joined with the optional profile alias. -/
structure Row where
  user_id : Nat
  dofus_name : Option (List Nat)
  job_name : List Nat
  level : Int
deriving DecidableEq

/-- Sort key of `sorted(out, key=lambda r: (-r[1], r[0]))`: level descending,
then job name ascending. -/
def jobLe (x y : Job) : Bool :=
  if y.level < x.level then true
  else if x.level = y.level then lexLe x.job_name y.job_name
  else false

theorem jobLe_trans : ∀ x y z, jobLe x y → jobLe y z → jobLe x z := by
  intro x y z
  simp only [jobLe]
  intro h1 h2
  split_ifs at h1 h2 ⊢ <;>
    first
      | rfl
      | exact lexLe_trans _ _ _ h1 h2
      | (exfalso; omega)
      | simp_all
      | omega

theorem jobLe_total : ∀ x y, jobLe x y || jobLe y x := by
  intro x y
  simp only [jobLe]
  split_ifs <;>
    first
      | simpa using lexLe_total x.job_name y.job_name
      | (exfalso; omega)
      | simp

/-- One derived roster entry: user id, optional alias, sorted job list,
arithmetic mean level.  Python computes the mean with float division; on
this domain (sums ≤ 3800, divisors ≤ 19 per user in practice, and exactly
representable numerators in general) float comparison and equality agree
with exact rational arithmetic, so the mean is embedded as `ℚ`. -/
structure Entry where
  user_id : Nat
  dofus_name : Option (List Nat)
  jobs : List Job
  avg : ℚ
deriving DecidableEq

/-- Sort key of `result.sort(key=lambda x: (-x[3], x[0]))`: mean level
descending, then user id ascending. -/
def entryLe (x y : Entry) : Bool :=
  if y.avg < x.avg then true
  else if x.avg = y.avg then decide (x.user_id ≤ y.user_id)
  else false

theorem entryLe_trans : ∀ x y z, entryLe x y → entryLe y z → entryLe x z := by
  intro x y z
  simp only [entryLe]
  intro h1 h2
  split_ifs at h1 h2 ⊢ <;>
    first
      | rfl
      | (exfalso; linarith)
      | (simp only [decide_eq_true_eq] at h1 h2 ⊢; omega)
      | simp_all

theorem entryLe_total : ∀ x y, entryLe x y || entryLe y x := by
  intro x y
  simp only [entryLe]
  rcases lt_trichotomy x.avg y.avg with h | h | h
  · have h1 : ¬ y.avg < x.avg := by linarith
    have h2 : x.avg ≠ y.avg := ne_of_lt h
    simp [h, h1, h2]
  · rw [h]
    simpa using Nat.le_total x.user_id y.user_id
  · have h1 : ¬ x.avg < y.avg := by linarith
    have h2 : y.avg ≠ x.avg := ne_of_lt h
    simp [h, h1, h2]

/-! ### The roster query (`DB.roster`) -/

/-- First-occurrence order of user ids: models the iteration order of the
Python dict built by `data.setdefault(r["user_id"], ...)` (insertion order =
order of first appearance in the row list). -/
def firstOccursAux (seen : List Nat) : List Nat → List Nat
  | [] => []
  | u :: r => if u ∈ seen then firstOccursAux seen r else u :: firstOccursAux (u :: seen) r

def firstOccurs (l : List Nat) : List Nat := firstOccursAux [] l

/-- The rows of one user, in row order (`lst["jobs"].append(...)`). -/
def userRows (rows : List Row) (u : Nat) : List Row :=
  rows.filter (fun r => r.user_id == u)

/-- The entry built for user `u`: jobs sorted by `(-level, job_name)`,
`avg = sum(levels) / len(jobs)`, alias from the first row of that user. -/
def mkEntry (rows : List Row) (u : Nat) : Entry :=
  let rs := userRows rows u
  let jobs := sortLe jobLe (rs.map (fun r => Job.mk r.job_name r.level))
  { user_id := u
    dofus_name := match rs with | [] => none | r :: _ => r.dofus_name
    jobs := jobs
    avg := ((jobs.map (fun j => (j.level : ℚ))).sum) / (jobs.length : ℚ) }

namespace DB

/-- `DB.roster`: group the guild's job rows by user, build each user's
entry, and sort by `(-avg, user_id)`. -/
def roster (rows : List Row) : List Entry :=
  sortLe entryLe ((firstOccurs (rows.map Row.user_id)).map (mkEntry rows))

end DB

/-! ### Profession catalog -/

/-- `EMOJI_BY_METIER` of the source, in source order. -/
def EMOJI_BY_METIER : List (List Nat × List Nat) :=
  [(codes "alchimiste", codes "🟢"), (codes "bûcheron", codes "🟢"),
   (codes "chasseur", codes "🟢"), (codes "mineur", codes "🟢"),
   (codes "paysan", codes "🟢"), (codes "pêcheur", codes "🟢"),
   (codes "bijoutier", codes "🔵"), (codes "joaillomage", codes "🔴"),
   (codes "cordonnier", codes "🔵"), (codes "cordomage", codes "🔴"),
   (codes "tailleur", codes "🔵"), (codes "costumage", codes "🔴"),
   (codes "forgeron", codes "🔵"), (codes "forgemage", codes "🔴"),
   (codes "façonneur", codes "🔵"), (codes "façomage", codes "🔴"),
   (codes "sculpteur", codes "🔵"), (codes "sculptemage", codes "🔴"),
   (codes "bricoleur", codes "🔵")]

def catalogKeys : List (List Nat) := EMOJI_BY_METIER.map Prod.fst

/-- The generic fallback emoji `"🛠️"`. -/
def TOOL_EMOJI : List Nat := codes "🛠️"

/-- `display_metier`: `f"{EMOJI_BY_METIER.get(norm(name), tool)} {name.capitalize()}"`. -/
def display_metier (name : List Nat) : List Nat :=
  (EMOJI_BY_METIER.lookup (norm name)).getD TOOL_EMOJI ++ [32] ++ pyCapitalize name

/-! ### The projector of `build_dashboard_embed` (source lines 229-248) -/

def CARDS_PER_PAGE : Nat := 6

/-- `norm(j) == job_filter_norm` for one job record. -/
def jobMatches (F : List Nat) (j : Job) : Bool := norm j.job_name == F

/-- `any(norm(j) == job_filter_norm for j, _ in jobs)`. -/
def entryHasJob (F : List Nat) (e : Entry) : Bool := e.jobs.any (jobMatches F)

/-- Restrict a retained entry's job list to the jobs matching the filter
(user id, alias and mean are carried through unchanged). -/
def restrictEntry (F : List Nat) (e : Entry) : Entry :=
  { e with jobs := e.jobs.filter (jobMatches F) }

/-- The filter comprehension of `build_dashboard_embed`. -/
def filterRoster (F : List Nat) : List Entry → List Entry
  | [] => []
  | e :: r =>
    if entryHasJob F e then restrictEntry F e :: filterRoster F r
    else filterRoster F r

/-- `job_filter_norm = norm(job_filter) if job_filter else None`
(a `None` filter and the falsy empty string both disable filtering). -/
def normFilter (jf : Option (List Nat)) : Option (List Nat) :=
  match jf with
  | none => none
  | some f => if f = [] then none else some (norm f)

def applyFilter (roster : List Entry) (jfn : Option (List Nat)) : List Entry :=
  match jfn with
  | none => roster
  | some F => filterRoster F roster

/-- `total_pages = max(1, math.ceil(len(roster) / CARDS_PER_PAGE))`.
`math.ceil` of the exact true division is embedded via `ℚ`. -/
def totalPagesOf (n : Nat) : Nat := max 1 (⌈(n : ℚ) / (CARDS_PER_PAGE : ℚ)⌉.toNat)

/-- The pure projection core of `build_dashboard_embed`: filter, page count,
page clamp, slice.  Returns the page slice and the page count. -/
def build_dashboard_embed (roster : List Entry) (page : Int) (jf : Option (List Nat)) :
    List Entry × Nat :=
  let fr := applyFilter roster (normFilter jf)
  let total := totalPagesOf fr.length
  let p : Int := max 0 (min page ((total : Int) - 1))
  ((fr.drop (p.toNat * CARDS_PER_PAGE)).take CARDS_PER_PAGE, total)

/-! ### Card rendering (source lines 260-271) -/

/-- One rendered profession line, abstracted to the `display_metier` text
and the level shown after it. -/
def jobLine (j : Job) : List Nat × Int := (display_metier j.job_name, j.level)

/-- The `lines` list built for one entry of the page slice (when a filter
is active the job list is filtered again, mirroring line 267). -/
def entryLines (jfn : Option (List Nat)) (e : Entry) : List (List Nat × Int) :=
  match jfn with
  | some F => (e.jobs.filter (jobMatches F)).map jobLine
  | none => e.jobs.map jobLine

/-- One dashboard card (`embed.add_field`): header data plus its lines. -/
structure Card where
  user_id : Nat
  dofus_name : Option (List Nat)
  lines : List (List Nat × Int)
deriving DecidableEq

/-- The card list of one page: an entry is rendered only `if lines:`. -/
def renderCards (jfn : Option (List Nat)) : List Entry → List Card
  | [] => []
  | e :: r =>
    if (entryLines jfn e).isEmpty then renderCards jfn r
    else { user_id := e.user_id, dofus_name := e.dofus_name,
           lines := entryLines jfn e } :: renderCards jfn r

/-! ### `DashboardView` (source lines 155-212) -/

structure DashboardView where
  total_pages : Int
  current_page : Int
  selected_filter : Option (List Nat)
deriving DecidableEq

/-- `DashboardView.__init__`: `total_pages = max(1, total_pages)` and
`current_page = max(0, min(current_page, self.total_pages - 1))`. -/
def DashboardView.init (total_pages current_page : Int)
    (selected_filter : Option (List Nat)) : DashboardView :=
  { total_pages := max 1 total_pages
    current_page := max 0 (min current_page (max 1 total_pages - 1))
    selected_filter := selected_filter }

/-- The `prev` button: `page = (current_page - 1) % self.total_pages`
(the view's stored page count), after which the re-render recomputes the
page count from the current roster and the new view construction clamps
the page into its range. -/
def DashboardView.prevTransition (v : DashboardView) (freshTotal : Int) : DashboardView :=
  DashboardView.init freshTotal ((v.current_page - 1) % v.total_pages) v.selected_filter

/-- The `next` button: `page = (current_page + 1) % self.total_pages`,
then re-render as in `prevTransition`. -/
def DashboardView.nextTransition (v : DashboardView) (freshTotal : Int) : DashboardView :=
  DashboardView.init freshTotal ((v.current_page + 1) % v.total_pages) v.selected_filter

/-! ### The profession filter select control (source lines 198-208) -/

/-- One option of the profession filter select control. -/
structure SelectOption where
  label : List Nat
  value : List Nat
  emoji : Option (List Nat)
deriving DecidableEq

def allOption : SelectOption :=
  { label := codes "Tous les métiers", value := codes "__all", emoji := none }

def mkMetierOption (m : List Nat) : SelectOption :=
  { label := pyCapitalize m
    value := norm m
    emoji := some ((EMOJI_BY_METIER.lookup m).getD TOOL_EMOJI) }

/-- The option list: the "all" sentinel, then one option per catalog key in
sorted order (`sorted({m for m in EMOJI_BY_METIER.keys()})`; the keys are
already distinct so the set comprehension does not drop any), kept only
`if m.replace("û","u").replace("â","a") not in set()` — a membership test
against the empty set. -/
def selectOptions : List SelectOption :=
  allOption ::
    ((sortLe lexLe catalogKeys).filter
        (fun m => !(([] : List (List Nat)).contains (fold2 m)))).map mkMetierOption

/-! ### `metier_set` (source lines 395-412) -/

/-- One persisted row of the `jobs` table. -/
structure JobRow where
  guild_id : Nat
  user_id : Nat
  job_name : List Nat
  level : Int
deriving DecidableEq

/-- `DB.set_job`: normalize the key, then SQL upsert on
`(guild_id, user_id, job_name)`. -/
def DB.set_job (store : List JobRow) (g u : Nat) (job : List Nat) (lvl : Int) :
    List JobRow :=
  let j := norm job
  if store.any (fun r => r.guild_id == g && r.user_id == u && r.job_name == j) then
    store.map (fun r =>
      if r.guild_id == g && r.user_id == u && r.job_name == j then
        { r with level := lvl } else r)
  else store ++ [{ guild_id := g, user_id := u, job_name := j, level := lvl }]

/-- The `/metier_set` command boundary.  The level bound is enforced by the
`app_commands.Range[int, 1, 200]` declaration on the `niveau` parameter
(rejected before the handler body runs), embedded here as the first guard;
the handler itself rejects `norm(metier) not in EMOJI_BY_METIER`.  Returns
the resulting jobs table and whether the mutation was performed (`false`
means a validation error was reported to the invoking user). -/
def metier_set (store : List JobRow) (g u : Nat) (metier : List Nat) (niveau : Int) :
    List JobRow × Bool :=
  if niveau < 1 ∨ 200 < niveau then (store, false)
  else if norm metier ∈ catalogKeys then (DB.set_job store g u metier niveau, true)
  else (store, false)

/-! ### Helper lemmas -/

theorem firstOccursAux_mem : ∀ (l seen : List Nat) (x : Nat),
    x ∈ firstOccursAux seen l ↔ (x ∈ l ∧ x ∉ seen)
  | [], seen, x => by simp [firstOccursAux]
  | u :: r, seen, x => by
    by_cases h : u ∈ seen
    · simp only [firstOccursAux, if_pos h, firstOccursAux_mem r seen x, List.mem_cons]
      constructor
      · rintro ⟨h1, h2⟩
        exact ⟨Or.inr h1, h2⟩
      · rintro ⟨rfl | h1, h2⟩
        · exact absurd h h2
        · exact ⟨h1, h2⟩
    · simp only [firstOccursAux, if_neg h, List.mem_cons,
        firstOccursAux_mem r (u :: seen) x]
      constructor
      · rintro (rfl | ⟨h1, h2⟩)
        · exact ⟨Or.inl rfl, h⟩
        · exact ⟨Or.inr h1, fun hx => h2 (Or.inr hx)⟩
      · rintro ⟨rfl | h1, h2⟩
        · exact Or.inl rfl
        · by_cases hxu : x = u
          · exact Or.inl hxu
          · refine Or.inr ⟨h1, ?_⟩
            simp only [List.mem_cons, not_or]
            exact ⟨hxu, h2⟩

theorem firstOccursAux_nodup : ∀ (l seen : List Nat), (firstOccursAux seen l).Nodup
  | [], _ => by simp [firstOccursAux]
  | u :: r, seen => by
    by_cases h : u ∈ seen
    · simpa [firstOccursAux, h] using firstOccursAux_nodup r seen
    · simp only [firstOccursAux, if_neg h]
      refine List.nodup_cons.mpr ⟨?_, firstOccursAux_nodup r (u :: seen)⟩
      intro hu
      exact ((firstOccursAux_mem r (u :: seen) u).mp hu).2 (List.mem_cons_self u seen)

theorem firstOccurs_mem (l : List Nat) (x : Nat) : x ∈ firstOccurs l ↔ x ∈ l := by
  simpa [firstOccurs] using firstOccursAux_mem l [] x

theorem firstOccurs_nodup (l : List Nat) : (firstOccurs l).Nodup :=
  firstOccursAux_nodup l []

theorem lookup_isSome_iff {α β : Type} [BEq α] [LawfulBEq α] (l : List (α × β)) (k : α) :
    (l.lookup k).isSome ↔ k ∈ l.map Prod.fst := by
  induction l with
  | nil => simp [List.lookup]
  | cons a r ih =>
    obtain ⟨k1, v1⟩ := a
    by_cases h : k = k1
    · subst h
      simp [List.lookup]
    · have hb : (k == k1) = false := by simpa using h
      simp [List.lookup, hb, ih, h]

theorem ceil_div_six (n : ℕ) : ⌈(n : ℚ) / 6⌉ = (((n + 5) / 6 : ℕ) : ℤ) := by
  rw [Int.ceil_eq_iff]
  constructor
  · have hInt : ((((n + 5) / 6 : ℕ) : ℤ) - 1) * 6 < (n : ℤ) := by omega
    have hq : (((((n + 5) / 6 : ℕ) : ℤ) : ℚ) - 1) * 6 < (n : ℚ) := by exact_mod_cast hInt
    linarith
  · have hInt : (n : ℤ) ≤ (((n + 5) / 6 : ℕ) : ℤ) * 6 := by omega
    have hq : (n : ℚ) ≤ ((((n + 5) / 6 : ℕ) : ℤ) : ℚ) * 6 := by exact_mod_cast hInt
    linarith

theorem totalPagesOf_eq (n : ℕ) : totalPagesOf n = max 1 ((n + 5) / 6) := by
  unfold totalPagesOf CARDS_PER_PAGE
  rw [show ((6 : ℕ) : ℚ) = 6 by norm_num, ceil_div_six, Int.toNat_ofNat]

theorem renderCards_eq (jfn : Option (List Nat)) (chunk : List Entry) :
    renderCards jfn chunk =
      (chunk.filter (fun e => !(entryLines jfn e).isEmpty)).map
        (fun e => { user_id := e.user_id, dofus_name := e.dofus_name,
                    lines := entryLines jfn e }) := by
  induction chunk with
  | nil => rfl
  | cons e r ih =>
    simp only [renderCards, List.filter_cons]
    cases h : (entryLines jfn e).isEmpty <;> simp [h, ih]

theorem entryLe_strict {a b : Entry} (h : entryLe a b) (hne : a.user_id ≠ b.user_id) :
    b.avg < a.avg ∨ (a.avg = b.avg ∧ a.user_id < b.user_id) := by
  unfold entryLe at h
  split_ifs at h with h1 h2
  · exact Or.inl h1
  · refine Or.inr ⟨h2, ?_⟩
    simp only [decide_eq_true_eq] at h
    omega

theorem jobLe_imp {x y : Job} (h : jobLe x y) :
    y.level < x.level ∨ (x.level = y.level ∧ lexLe x.job_name y.job_name) := by
  unfold jobLe at h
  split_ifs at h with h1 h2
  · exact Or.inl h1
  · exact Or.inr ⟨h2, h⟩

theorem DashboardView.init_of_inRange (T q : Int) (f : Option (List Nat))
    (hT : 1 ≤ T) (h0 : 0 ≤ q) (hq : q ≤ T - 1) :
    DashboardView.init T q f = ⟨T, q, f⟩ := by
  simp only [DashboardView.init, DashboardView.mk.injEq]
  refine ⟨by omega, by omega, trivial⟩

theorem DashboardView.nextTransition_page (T q : Int) (f : Option (List Nat))
    (hT : 1 ≤ T) :
    DashboardView.nextTransition ⟨T, q, f⟩ T = ⟨T, (q + 1) % T, f⟩ := by
  have hT0 : T ≠ 0 := by omega
  have h0 : 0 ≤ (q + 1) % T := Int.emod_nonneg _ hT0
  have h1 : (q + 1) % T ≤ T - 1 := by
    have := Int.emod_lt_of_pos (q + 1) (show (0 : Int) < T by omega)
    omega
  exact DashboardView.init_of_inRange T _ f hT h0 h1

theorem DashboardView.prevTransition_page (T q : Int) (f : Option (List Nat))
    (hT : 1 ≤ T) :
    DashboardView.prevTransition ⟨T, q, f⟩ T = ⟨T, (q - 1) % T, f⟩ := by
  have hT0 : T ≠ 0 := by omega
  have h0 : 0 ≤ (q - 1) % T := Int.emod_nonneg _ hT0
  have h1 : (q - 1) % T ≤ T - 1 := by
    have := Int.emod_lt_of_pos (q - 1) (show (0 : Int) < T by omega)
    omega
  exact DashboardView.init_of_inRange T _ f hT h0 h1

theorem DashboardView.next_iter (T p : Int) (f : Option (List Nat))
    (hT : 1 ≤ T) (h0 : 0 ≤ p) (hp : p ≤ T - 1) :
    ∀ k : Nat,
      (fun v => DashboardView.nextTransition v T)^[k] ⟨T, p, f⟩ = ⟨T, (p + k) % T, f⟩ := by
  intro k
  induction k with
  | zero =>
    simp only [Function.iterate_zero_apply, Nat.cast_zero, add_zero]
    rw [Int.emod_eq_of_lt h0 (by omega)]
  | succ k ih =>
    rw [Function.iterate_succ_apply', ih,
      DashboardView.nextTransition_page T _ f hT]
    have : ((p + (k : Int)) % T + 1) % T = (p + ((k : Nat) + 1 : Nat)) % T := by
      rw [Int.emod_add_emod]
      congr 1
      push_cast
      ring
    rw [this]

/-! ### Claim theorems -/

/-- C5: `norm` is idempotent and total (it is a total Lean function), case
and accent variants of a profession name normalize to the identical key
("Forgeron", "forgeron", "FORGERON" give the same key), and accented
characters outside the fixed fold table (here "â") pass through unfolded. -/
theorem norm_idempotent_and_variants :
    (∀ s : List Nat, norm (norm s) = norm s) ∧
    norm (codes "Forgeron") = norm (codes "forgeron") ∧
    norm (codes "FORGERON") = norm (codes "forgeron") ∧
    norm (codes "forgeron") = codes "forgeron" ∧
    norm (codes "Pêcheur") = norm (codes "pêcheur") ∧
    norm (codes "pâte") = codes "pâte" :=
  ⟨norm_idem, by decide, by decide, by decide, by decide, by decide⟩

/-- C6: the filter select control's option list is the "all professions"
sentinel followed by one option per catalog profession (the comprehension's
membership test against the empty set removes nothing), every catalog
profession yields an option, and no two option-generating keys share the
secondary accent-folded key `m.replace("û","u").replace("â","a")`. -/
theorem selectOptions_catalog_dedup :
    selectOptions.head? = some allOption ∧
    selectOptions.drop 1 = (sortLe lexLe catalogKeys).map mkMetierOption ∧
    catalogKeys.all (fun m => decide (mkMetierOption m ∈ selectOptions)) ∧
    ((sortLe lexLe catalogKeys).map fold2).Nodup ∧
    selectOptions.length = catalogKeys.length + 1 := by
  refine ⟨rfl, by decide, by decide, by decide, by decide⟩

/-- C7: a `/metier_set` invocation whose level is outside [1,200] or whose
profession key is not in the catalog reports a validation error (`false`)
and leaves the jobs table unchanged; `set_job` runs exactly when both
validations pass. -/
theorem metier_set_validation (store : List JobRow) (g u : Nat) (metier : List Nat)
    (niveau : Int) :
    ((niveau < 1 ∨ 200 < niveau ∨ norm metier ∉ catalogKeys) →
      metier_set store g u metier niveau = (store, false)) ∧
    ((1 ≤ niveau ∧ niveau ≤ 200 ∧ norm metier ∈ catalogKeys) →
      metier_set store g u metier niveau = (DB.set_job store g u metier niveau, true)) := by
  constructor
  · intro h
    unfold metier_set
    rcases h with h | h | h
    · rw [if_pos (Or.inl h)]
    · rw [if_pos (Or.inr h)]
    · by_cases h1 : niveau < 1 ∨ 200 < niveau
      · rw [if_pos h1]
      · rw [if_neg h1, if_neg h]
  · rintro ⟨h1, h2, h3⟩
    unfold metier_set
    rw [if_neg (by omega), if_pos h3]

/-- Witness for C7: level 201 and an unknown profession are both rejected
without touching the store. -/
theorem metier_set_validation_witness :
    metier_set [] 0 0 (codes "paysan") 201 = ([], false) ∧
    metier_set [] 0 0 (codes "tisseur") 100 = ([], false) :=
  ⟨(metier_set_validation [] 0 0 (codes "paysan") 201).1 (Or.inr (Or.inl (by decide))),
   (metier_set_validation [] 0 0 (codes "tisseur") 100).1 (Or.inr (Or.inr (by decide)))⟩

/-- C8: every constructed `DashboardView` satisfies
`1 ≤ total_pages` and `0 ≤ current_page ≤ total_pages - 1`, for arbitrary
(including zero, negative or out-of-range) constructor arguments. -/
theorem dashboardView_init_invariant (t c : Int) (f : Option (List Nat)) :
    1 ≤ (DashboardView.init t c f).total_pages ∧
    0 ≤ (DashboardView.init t c f).current_page ∧
    (DashboardView.init t c f).current_page ≤ (DashboardView.init t c f).total_pages - 1 := by
  simp only [DashboardView.init]
  omega

/-- C9: an entry of the page slice whose rendered line list is empty is
omitted from the card list (the card list is exactly the entries with
nonempty lines, in order), so every rendered card has at least one
profession line, a page never renders more cards than its slice holds, and
a filtered page can render strictly fewer cards than the slice contains. -/
theorem renderCards_omits_empty (jfn : Option (List Nat)) (chunk : List Entry) :
    renderCards jfn chunk =
      (chunk.filter (fun e => !(entryLines jfn e).isEmpty)).map
        (fun e => { user_id := e.user_id, dofus_name := e.dofus_name,
                    lines := entryLines jfn e }) ∧
    (∀ c ∈ renderCards jfn chunk, c.lines ≠ []) ∧
    (renderCards jfn chunk).length ≤ chunk.length ∧
    (renderCards (some (norm (codes "forgeron")))
        [{ user_id := 7, dofus_name := none,
           jobs := [{ job_name := codes "paysan", level := 50 }], avg := 50 }]).length <
      ([{ user_id := 7, dofus_name := none,
          jobs := [{ job_name := codes "paysan", level := 50 }],
          avg := (50 : ℚ) }] : List Entry).length := by
  refine ⟨renderCards_eq jfn chunk, ?_, ?_, by decide⟩
  · intro c hc
    rw [renderCards_eq] at hc
    obtain ⟨e, he, rfl⟩ := List.mem_map.mp hc
    have hpred := List.of_mem_filter he
    simp only [Bool.not_eq_eq_eq_not, Bool.not_true] at hpred
    simpa [List.isEmpty_iff] using hpred
  · rw [renderCards_eq, List.length_map]
    exact List.length_filter_le _ chunk

/-- C10: `display_metier` is total; it prepends the catalog emoji when the
normalized name is a known profession and the generic tool emoji otherwise,
followed in both cases by the capitalized raw name. -/
theorem display_metier_total (name : List Nat) :
    (∀ em, EMOJI_BY_METIER.lookup (norm name) = some em →
        display_metier name = em ++ [32] ++ pyCapitalize name) ∧
    (EMOJI_BY_METIER.lookup (norm name) = none →
        display_metier name = TOOL_EMOJI ++ [32] ++ pyCapitalize name) ∧
    ((EMOJI_BY_METIER.lookup (norm name)).isSome ↔ norm name ∈ catalogKeys) := by
  refine ⟨?_, ?_, lookup_isSome_iff EMOJI_BY_METIER (norm name)⟩
  · intro em h
    unfold display_metier
    rw [h]
    rfl
  · intro h
    unfold display_metier
    rw [h]
    rfl

/-- Witness for C10: a known (case variant) and an unknown profession. -/
theorem display_metier_total_witness :
    display_metier (codes "FORGERON") = codes "🔵" ++ [32] ++ pyCapitalize (codes "FORGERON") ∧
    display_metier (codes "inconnu") = TOOL_EMOJI ++ [32] ++ pyCapitalize (codes "inconnu") :=
  ⟨(display_metier_total (codes "FORGERON")).1 (codes "🔵") (by decide),
   (display_metier_total (codes "inconnu")).2.1 (by decide)⟩

/-- C1: the projection computes
`totalPages = max(1, ceil(filteredCount / pageSize))` (stated both with the
rational ceiling of the claim and the equivalent `ℕ` ceiling division),
clamps any requested page (including negative ones) into
`[0, totalPages - 1]` instead of raising (projection at any page equals the
projection at the clamped page, which lies in range), and an empty filtered
roster yields `totalPages = 1` with an empty card slice. -/
theorem build_dashboard_embed_pagination (R : List Entry) (page : Int)
    (jf : Option (List Nat)) :
    ((build_dashboard_embed R page jf).2 : Int) =
        max 1 ⌈((applyFilter R (normFilter jf)).length : ℚ) / 6⌉ ∧
    (build_dashboard_embed R page jf).2 =
        max 1 (((applyFilter R (normFilter jf)).length + 5) / 6) ∧
    build_dashboard_embed R page jf =
      build_dashboard_embed R
        (max 0 (min page (((build_dashboard_embed R page jf).2 : Int) - 1))) jf ∧
    0 ≤ max 0 (min page (((build_dashboard_embed R page jf).2 : Int) - 1)) ∧
    max 0 (min page (((build_dashboard_embed R page jf).2 : Int) - 1)) ≤
      ((build_dashboard_embed R page jf).2 : Int) - 1 ∧
    ((applyFilter R (normFilter jf)).length = 0 →
      (build_dashboard_embed R page jf).2 = 1 ∧
      (build_dashboard_embed R page jf).1 = []) := by
  have h2 : (build_dashboard_embed R page jf).2 =
      totalPagesOf (applyFilter R (normFilter jf)).length := rfl
  set n := (applyFilter R (normFilter jf)).length with hn
  refine ⟨?_, ?_, ?_, ?_, ?_, ?_⟩
  · rw [h2, totalPagesOf_eq, ceil_div_six]
    simp [Nat.cast_max]
  · rw [h2, totalPagesOf_eq]
  · rw [h2]
    simp only [build_dashboard_embed]
    rw [← hn]
    have hpp :
        max 0 (min (max 0 (min page ((totalPagesOf n : Int) - 1)))
            ((totalPagesOf n : Int) - 1)) =
          max 0 (min page ((totalPagesOf n : Int) - 1)) := by omega
    rw [hpp]
  · rw [h2]
    omega
  · rw [h2, totalPagesOf_eq]
    omega
  · intro h0
    have hfr : applyFilter R (normFilter jf) = [] := List.length_eq_zero.mp (hn ▸ h0)
    constructor
    · rw [h2, totalPagesOf_eq, h0]
      decide
    · simp only [build_dashboard_embed]
      rw [hfr]
      simp

/-- Witness for C1: an empty roster with a negative requested page. -/
theorem build_dashboard_embed_pagination_witness :
    (build_dashboard_embed [] (-5) none).2 = 1 ∧
    (build_dashboard_embed [] (-5) none).1 = [] :=
  (build_dashboard_embed_pagination [] (-5) none).2.2.2.2.2 (by decide)

/-- C2 counterexample: the `next` callback computes the modulo with the
view's stored `total_pages`, not with a page count recomputed from the
current roster.  A view on page 2 of 3 whose roster has meanwhile shrunk to
2 pages transitions to page `(2+1) % 3 = 0` clamped into range, i.e. 0,
whereas the claim's `(page+1) mod freshTotalPages` would give `3 % 2 = 1`. -/
theorem nav_modulo_stale_total_cex :
    (DashboardView.nextTransition ⟨3, 2, none⟩ 2).current_page = 0 ∧
    (2 + 1) % (2 : Int) = 1 ∧
    ¬ ((DashboardView.nextTransition ⟨3, 2, none⟩ 2).current_page =
        (2 + 1) % (2 : Int)) := by
  decide

/-- C2 (amended): `next`/`prev` compute `(page ± 1) mod` the view's stored
`total_pages` and clamp the result into the freshly recomputed page range;
when the recomputed page count equals the stored one, `next` maps `page` to
`(page+1) mod totalPages`, `prev` to `(page-1) mod totalPages`, `prev`
inverts `next`, and `next` applied `totalPages` times is the identity. -/
theorem nav_circular (T p : Int) (f : Option (List Nat)) (hT : 1 ≤ T) (h0 : 0 ≤ p)
    (hp : p ≤ T - 1) :
    (DashboardView.nextTransition ⟨T, p, f⟩ T).current_page = (p + 1) % T ∧
    (DashboardView.prevTransition ⟨T, p, f⟩ T).current_page = (p - 1) % T ∧
    DashboardView.prevTransition (DashboardView.nextTransition ⟨T, p, f⟩ T) T =
      ⟨T, p, f⟩ ∧
    (fun v => DashboardView.nextTransition v T)^[T.toNat] ⟨T, p, f⟩ = ⟨T, p, f⟩ ∧
    (∀ freshTotal : Int,
      (DashboardView.nextTransition ⟨T, p, f⟩ freshTotal).current_page =
        max 0 (min ((p + 1) % T) (max 1 freshTotal - 1))) := by
  refine ⟨?_, ?_, ?_, ?_, fun _ => rfl⟩
  · rw [DashboardView.nextTransition_page T p f hT]
  · rw [DashboardView.prevTransition_page T p f hT]
  · rw [DashboardView.nextTransition_page T p f hT,
      DashboardView.prevTransition_page T _ f hT]
    have h1 : ((p + 1) % T - 1) % T = ((p + 1) - 1) % T := by
      rw [sub_eq_add_neg, Int.emod_add_emod, ← sub_eq_add_neg]
    rw [h1, add_sub_cancel_right, Int.emod_eq_of_lt h0 (by omega)]
  · rw [DashboardView.next_iter T p f hT h0 hp T.toNat,
      Int.toNat_of_nonneg (show (0 : Int) ≤ T by omega)]
    have h3 := Int.add_mul_emod_self_left p T 1
    rw [mul_one] at h3
    rw [h3, Int.emod_eq_of_lt h0 (by omega)]

/-- Witness for C2 (amended): a two-page dashboard on page 1. -/
theorem nav_circular_witness :
    (DashboardView.nextTransition ⟨2, 1, none⟩ 2).current_page = (1 + 1) % (2 : Int) ∧
    (DashboardView.prevTransition ⟨2, 1, none⟩ 2).current_page = (1 - 1) % (2 : Int) ∧
    DashboardView.prevTransition (DashboardView.nextTransition ⟨2, 1, none⟩ 2) 2 =
      ⟨2, 1, none⟩ ∧
    (fun v => DashboardView.nextTransition v 2)^[(2 : Int).toNat] ⟨2, 1, none⟩ =
      ⟨2, 1, none⟩ := by
  have h := nav_circular 2 1 none (by decide) (by decide) (by decide)
  exact ⟨h.1, h.2.1, h.2.2.1, h.2.2.2.1⟩

/-- C3: filtering retains exactly the entries with at least one job whose
normalized name equals the filter key, restricts each retained entry's
displayed job list to the matching jobs, and preserves user id, mean level
and relative order (the retained `(user, mean)` pairs form a sublist of the
unfiltered roster's pairs: ranking is computed before filtering). -/
theorem filterRoster_spec (R : List Entry) (F : List Nat) :
    (∀ e0 ∈ R, (restrictEntry F e0).avg = e0.avg ∧
        (restrictEntry F e0).user_id = e0.user_id ∧
        (restrictEntry F e0).jobs = e0.jobs.filter (jobMatches F)) ∧
    (∀ e, e ∈ filterRoster F R ↔
        ∃ e0, e0 ∈ R ∧ entryHasJob F e0 ∧ e = restrictEntry F e0) ∧
    ((filterRoster F R).map (fun e => (e.user_id, e.avg))).Sublist
      (R.map (fun e => (e.user_id, e.avg))) := by
  refine ⟨fun e0 _ => ⟨rfl, rfl, rfl⟩, ?_, ?_⟩
  · intro e
    induction R with
    | nil => simp [filterRoster]
    | cons a r ih =>
      by_cases h : entryHasJob F a
      · simp only [filterRoster, if_pos h, List.mem_cons]
        constructor
        · rintro (rfl | he)
          · exact ⟨a, Or.inl rfl, h, rfl⟩
          · obtain ⟨e0, h1, h2, h3⟩ := ih.mp he
            exact ⟨e0, Or.inr h1, h2, h3⟩
        · rintro ⟨e0, rfl | h1, h2, h3⟩
          · exact Or.inl h3
          · exact Or.inr (ih.mpr ⟨e0, h1, h2, h3⟩)
      · simp only [filterRoster, if_neg h, List.mem_cons]
        constructor
        · intro he
          obtain ⟨e0, h1, h2, h3⟩ := ih.mp he
          exact ⟨e0, Or.inr h1, h2, h3⟩
        · rintro ⟨e0, rfl | h1, h2, h3⟩
          · exact absurd h2 h
          · exact ih.mpr ⟨e0, h1, h2, h3⟩
  · induction R with
    | nil => simp [filterRoster]
    | cons a r ih =>
      by_cases h : entryHasJob F a
      · simp only [filterRoster, if_pos h, List.map_cons]
        exact List.Sublist.cons₂ _ ih
      · simp only [filterRoster, if_neg h, List.map_cons]
        exact List.Sublist.cons _ ih

/-- Witness for C3: one matching and one non-matching entry. -/
theorem filterRoster_spec_witness :
    ((filterRoster (codes "paysan")
        [{ user_id := 1, dofus_name := none,
           jobs := [{ job_name := codes "paysan", level := 10 }], avg := 10 },
         { user_id := 2, dofus_name := none,
           jobs := [{ job_name := codes "mineur", level := 30 }], avg := 30 }]).map
        (fun e => (e.user_id, e.avg))).Sublist
      (([{ user_id := 1, dofus_name := none,
           jobs := [{ job_name := codes "paysan", level := 10 }], avg := 10 },
         { user_id := 2, dofus_name := none,
           jobs := [{ job_name := codes "mineur", level := 30 }],
           avg := (30 : ℚ) }] : List Entry).map (fun e => (e.user_id, e.avg))) :=
  (filterRoster_spec _ (codes "paysan")).2.2

/-- C4: the roster query returns one entry per user appearing in the
guild's job rows (a user with zero job records has no rows and never
appears; user ids are pairwise distinct in the result), each entry's mean
equals the arithmetic mean of that user's own job levels (stated as
`avg * count = sum` over a job list that is a permutation of the user's
rows), the entries are strictly ordered by mean descending with user id
ascending as tie-break, and each entry's job list is sorted by level
descending then job name ascending. -/
theorem roster_spec (rows : List Row) :
    (((DB.roster rows).map Entry.user_id).Nodup ∧
      ∀ u : Nat, u ∈ (DB.roster rows).map Entry.user_id ↔ u ∈ rows.map Row.user_id) ∧
    (∀ e ∈ DB.roster rows,
        e.jobs ≠ [] ∧
        e.avg * (e.jobs.length : ℚ) = (e.jobs.map (fun j => (j.level : ℚ))).sum ∧
        e.jobs.Perm ((userRows rows e.user_id).map (fun r => Job.mk r.job_name r.level))) ∧
    (DB.roster rows).Pairwise
      (fun a b => b.avg < a.avg ∨ (a.avg = b.avg ∧ a.user_id < b.user_id)) ∧
    (∀ e ∈ DB.roster rows,
        e.jobs.Pairwise
          (fun x y => y.level < x.level ∨ (x.level = y.level ∧ lexLe x.job_name y.job_name))) := by
  have hperm : (DB.roster rows).Perm
      ((firstOccurs (rows.map Row.user_id)).map (mkEntry rows)) :=
    sortLe_perm entryLe _
  have hmapuid :
      ((firstOccurs (rows.map Row.user_id)).map (mkEntry rows)).map Entry.user_id
        = firstOccurs (rows.map Row.user_id) := by
    rw [List.map_map]
    have hc : (Entry.user_id ∘ mkEntry rows) = id := funext fun u => rfl
    rw [hc, List.map_id]
  have hnodup : ((DB.roster rows).map Entry.user_id).Nodup := by
    have hpm := hperm.map Entry.user_id
    rw [hmapuid] at hpm
    exact hpm.nodup_iff.mpr (firstOccurs_nodup _)
  have hdecomp : ∀ e ∈ DB.roster rows,
      ∃ u, u ∈ firstOccurs (rows.map Row.user_id) ∧ e = mkEntry rows u := by
    intro e he
    obtain ⟨u, hu, hh⟩ := List.mem_map.mp (hperm.mem_iff.mp he)
    exact ⟨u, hu, hh.symm⟩
  have hjobs : ∀ u, u ∈ rows.map Row.user_id → (mkEntry rows u).jobs ≠ [] := by
    intro u hu
    obtain ⟨r, hr, hru⟩ := List.mem_map.mp hu
    have hmem : r ∈ userRows rows u := by
      rw [userRows, List.mem_filter]
      exact ⟨hr, by simpa using hru⟩
    have hlenj : (mkEntry rows u).jobs.length = (userRows rows u).length := by
      simp only [mkEntry]
      rw [(sortLe_perm jobLe _).length_eq, List.length_map]
    intro hnil
    rw [hnil] at hlenj
    have : (userRows rows u).length ≠ 0 := by
      intro h0
      rw [List.length_eq_zero.mp h0] at hmem
      exact absurd hmem (List.not_mem_nil r)
    simp at hlenj
    exact this hlenj.symm
  refine ⟨⟨hnodup, ?_⟩, ?_, ?_, ?_⟩
  · intro u
    rw [(hperm.map Entry.user_id).mem_iff, hmapuid, firstOccurs_mem]
  · intro e he
    obtain ⟨u, hu, rfl⟩ := hdecomp e he
    have hurow : u ∈ rows.map Row.user_id := (firstOccurs_mem _ u).mp hu
    have hne := hjobs u hurow
    refine ⟨hne, ?_, ?_⟩
    · have hlen0 : ((mkEntry rows u).jobs.length : ℚ) ≠ 0 :=
        Nat.cast_ne_zero.mpr (fun h => hne (List.length_eq_zero.mp h))
      have havg : (mkEntry rows u).avg =
          ((mkEntry rows u).jobs.map (fun j => (j.level : ℚ))).sum /
            ((mkEntry rows u).jobs.length : ℚ) := rfl
      rw [havg, div_mul_cancel₀ _ hlen0]
    · exact sortLe_perm jobLe ((userRows rows u).map (fun r => Job.mk r.job_name r.level))
  · have hpw : (DB.roster rows).Pairwise (fun a b => entryLe a b) :=
      sortLe_pairwise entryLe entryLe_trans entryLe_total _
    have hneq : (DB.roster rows).Pairwise (fun a b => a.user_id ≠ b.user_id) :=
      List.pairwise_map.mp hnodup
    exact (hpw.and hneq).imp fun h => entryLe_strict h.1 h.2
  · intro e he
    obtain ⟨u, hu, rfl⟩ := hdecomp e he
    have hpw : (mkEntry rows u).jobs.Pairwise (fun x y => jobLe x y) :=
      sortLe_pairwise jobLe jobLe_trans jobLe_total _
    exact hpw.imp fun h => jobLe_imp h

unseal Rat.mul Rat.inv Rat.add in
/-- Witness for C4: two users, one of them with two job rows; the roster
orders user 2 (mean 30) before user 1 (mean 15). -/
theorem roster_spec_witness :
    ((DB.roster [⟨1, none, codes "paysan", 10⟩, ⟨2, none, codes "mineur", 30⟩,
        ⟨1, none, codes "forgeron", 20⟩]).map Entry.user_id).Nodup ∧
    (DB.roster [⟨1, none, codes "paysan", 10⟩, ⟨2, none, codes "mineur", 30⟩,
        ⟨1, none, codes "forgeron", 20⟩]).map Entry.user_id = [2, 1] :=
  ⟨(roster_spec _).1.1, by decide⟩

/-- Witness for C5: idempotence at a concrete mixed-case padded input. -/
theorem norm_idempotent_witness :
    norm (norm (codes "  FORGERON ")) = norm (codes "  FORGERON ") :=
  norm_idempotent_and_variants.1 (codes "  FORGERON ")

/-- Witness for C8: negative page count and out-of-range page. -/
theorem dashboardView_init_invariant_witness :
    1 ≤ (DashboardView.init (-3) 99 none).total_pages ∧
    0 ≤ (DashboardView.init (-3) 99 none).current_page ∧
    (DashboardView.init (-3) 99 none).current_page ≤
      (DashboardView.init (-3) 99 none).total_pages - 1 :=
  dashboardView_init_invariant (-3) 99 none

/-- Witness for C9: a one-entry unfiltered slice renders at most one card. -/
theorem renderCards_omits_empty_witness :
    (renderCards none
        [{ user_id := 1, dofus_name := none,
           jobs := [{ job_name := codes "paysan", level := 5 }], avg := 5 }]).length ≤
      ([{ user_id := 1, dofus_name := none,
          jobs := [{ job_name := codes "paysan", level := 5 }],
          avg := (5 : ℚ) }] : List Entry).length :=
  (renderCards_omits_empty none _).2.2.1

end BotMetiers
